import Mathlib

/-! Shallow embedding of the MongoDB-Database-Cloner server
(`src/index.js` and the extended variant `src/unnamed/part_000`; the
clone engine and job tracker are duplicated verbatim between the two
files, so they are embedded once).

Conventions of the embedding:

* JavaScript is single threaded: the job record mutated by
  `cloneDatabase` is observable by pollers only while the engine is
  suspended at an `await`.  The engine is therefore embedded as a pure
  function producing the list of job states visible at each `await`
  suspension point (the *trace*), together with the final resting
  state.  Assignments between two `await`s form one atomic block.
* `Math.round` on a non-negative rational `num/den` is
  `⌊num/den + 1/2⌋ = (2*num + den) / (2*den)` (floor division).
* Human-readable fields that no claim mentions (`details`,
  `startTime`, `endTime`) and the raw document payloads copied by the
  engine are not modelled; document batches are modelled by their
  sizes, which is all the counters depend on.
* Failures injected by the environment follow the error taxonomy of
  the program: a connection attempt can fail, an `insertMany` batch
  can fail (fatal, caught by the outer `catch`), an individual
  `createIndex` can fail (non-fatal, caught by the inner `catch`).
-/

namespace MongoCloner

/-- JavaScript `Math.round ((num / den) * 100)` for natural `num`, `den`
(`Math.round` is floor of `x + 1/2` for non-negative `x`). -/
def mathRound100 (num den : Nat) : Nat :=
  (200 * num + den) / (2 * den)

/-- The `status` field of a clone job
(`src/unnamed/part_000`, values assigned at lines 116, 446, 456, 472, 526, 532). -/
inductive Status where
  | starting
  | connecting
  | analyzing
  | cloning
  | completed
  | failed
deriving DecidableEq, Repr

/-- The job record stored in the `cloningJobs` map
(`src/unnamed/part_000:114-127`), restricted to the machine-readable
fields (the human-readable `details` and the timestamps carry no
information any claim mentions). -/
structure CloneJob where
  status : Status
  progress : Nat
  collections : List String
  currentCollection : Option String
  totalCollections : Nat
  processedCollections : Nat
  totalDocuments : Nat
  processedDocuments : Nat
  errors : List String
deriving DecidableEq, Repr

/-- The job entry created by `POST /api/clone-database`
(`src/unnamed/part_000:114-127`). -/
def initJob : CloneJob :=
  { status := .starting
    progress := 0
    collections := []
    currentCollection := none
    totalCollections := 0
    processedCollections := 0
    totalDocuments := 0
    processedDocuments := 0
    errors := [] }

/-- One index of a source collection, with the environment's verdict on
whether `createIndex` for it succeeds on the target. -/
structure SourceIndex where
  name : String
  createFails : Bool
deriving DecidableEq, Repr

/-- One collection of the source database: its name, its document count
(the source is static during the run, so `countDocuments` and
`find({}).toArray()` agree), its indexes, and the environment's verdict
on which `insertMany` batch, if any, throws. -/
structure SourceCollection where
  name : String
  docCount : Nat
  indexes : List SourceIndex
  failAtBatch : Option Nat
deriving DecidableEq, Repr

/-- The environment of one clone run: whether the two
`connectToMongoDB` calls succeed, and the source database contents. -/
structure CloneEnv where
  sourceConnectOk : Bool
  targetConnectOk : Bool
  collections : List SourceCollection
deriving DecidableEq, Repr

/-- Sizes of the slices `documents.slice(j, j + 1000)` taken by the
batch loop (`src/unnamed/part_000:496-498`) over `n` documents. -/
def batchSizes (n : Nat) : List Nat :=
  if h : n = 0 then [] else min 1000 n :: batchSizes (n - 1000)
decreasing_by exact Nat.sub_lt (Nat.pos_of_ne_zero h) (by norm_num)

/-- The batch loop (`src/unnamed/part_000:497-504`): at each batch the
engine suspends on `await insertMany` (one trace snapshot of the state
before the post-batch assignments); if the environment fails this batch
the exception propagates (`false`), otherwise `processedDocuments` and
`progress` are updated in one atomic block and the loop continues.
`idx` is the current batch index (starting at 0). -/
def runBatches (failAt : Option Nat) (idx : Nat) (sizes : List Nat)
    (job : CloneJob) : List CloneJob × CloneJob × Bool :=
  match sizes with
  | [] => ([], job, true)
  | s :: rest =>
      if failAt = some idx then
        ([job], job, false)
      else
        let job1 : CloneJob :=
          { job with
            processedDocuments := job.processedDocuments + s
            progress :=
              mathRound100 (job.processedDocuments + s) job.totalDocuments }
        let r := runBatches failAt (idx + 1) rest job1
        (job :: r.1, r.2.1, r.2.2)

/-- The index loop (`src/unnamed/part_000:509-521`): the default `_id_`
index is skipped without any `await`; every other index suspends on
`await createIndex` (one snapshot), and a failure pushes exactly one
message onto `errors` and continues (the inner `catch`). -/
def runIndexes (collName : String) (idxs : List SourceIndex)
    (job : CloneJob) : List CloneJob × CloneJob :=
  match idxs with
  | [] => ([], job)
  | i :: rest =>
      if i.name = "_id_" then
        runIndexes collName rest job
      else
        let job1 : CloneJob :=
          if i.createFails then
            { job with errors := job.errors ++
                ["Failed to create index " ++ i.name ++ " on " ++ collName] }
          else job
        let r := runIndexes collName rest job1
        (job :: r.1, r.2)

/-- The collection loop (`src/unnamed/part_000:476-524`): set
`currentCollection`, suspend on `await drop` (failure swallowed) and on
`await find().toArray()`, run the batch loop, and if no batch threw,
suspend on `await listIndexes`, run the index loop, increment
`processedCollections`, and continue with the next collection.  A batch
failure propagates the exception (`false`). -/
def runCollections (cols : List SourceCollection) (job : CloneJob) :
    List CloneJob × CloneJob × Bool :=
  match cols with
  | [] => ([], job, true)
  | c :: rest =>
      let job1 : CloneJob := { job with currentCollection := some c.name }
      let rb := runBatches c.failAtBatch 0 (batchSizes c.docCount) job1
      if rb.2.2 then
        let ri := runIndexes c.name c.indexes rb.2.1
        let job4 : CloneJob :=
          { ri.2 with processedCollections := ri.2.processedCollections + 1 }
        let rr := runCollections rest job4
        (job1 :: job1 :: rb.1 ++ (rb.2.1 :: ri.1) ++ rr.1, rr.2.1, rr.2.2)
      else
        (job1 :: job1 :: rb.1, rb.2.1, false)

/-- Which clients were opened and closed during a run
(the `finally` block, `src/unnamed/part_000:536-539`). -/
structure ConnLog where
  sourceOpened : Bool
  targetOpened : Bool
  sourceClosed : Bool
  targetClosed : Bool
deriving DecidableEq, Repr

/-- Error message produced by `connectToMongoDB`
(`src/unnamed/part_000:65`). -/
def connectionFailedMsg : String := "Connection failed"

/-- Error message of a failing `insertMany` call. -/
def insertFailedMsg : String := "insertMany failed"

/-- Total number of documents of the source database (what the
`analyzing` pass computes at `src/unnamed/part_000:465-470`). -/
def totalDocsOf (env : CloneEnv) : Nat :=
  (env.collections.map (fun c => c.docCount)).sum

/-- The job after the first mutation block of the engine
(`src/unnamed/part_000:446`). -/
def connectingJob : CloneJob := { initJob with status := .connecting }

/-- The job after both connections succeed
(`src/unnamed/part_000:456`). -/
def analyzingJob : CloneJob := { connectingJob with status := .analyzing }

/-- The job after `listCollections` resolves
(`src/unnamed/part_000:461-462`). -/
def collectionsJob (env : CloneEnv) : CloneJob :=
  { analyzingJob with
    totalCollections := env.collections.length
    collections := env.collections.map (fun c => c.name) }

/-- The job after the document-counting pass, entering the `cloning`
stage (`src/unnamed/part_000:470-472`). -/
def cloningJob (env : CloneEnv) : CloneJob :=
  { collectionsJob env with
    totalDocuments := totalDocsOf env
    status := .cloning }

/-- The final job of a run whose `connectToMongoDB` threw
(the outer `catch`, `src/unnamed/part_000:531-535`). -/
def failedConnectJob : CloneJob :=
  { connectingJob with
    status := .failed
    errors := connectingJob.errors ++ [connectionFailedMsg] }

/-- The clone engine `cloneDatabase`
(`src/unnamed/part_000:439-540`, identical to `src/index.js:129-230`),
embedded as the trace of job states observable at each `await`
suspension point, the final job state (last element of the trace), and
the connection open/close log.  The trace starts with the freshly
created job (`starting`), the state pollers find in the map before the
engine's first synchronous block runs; the two `connectToMongoDB`
awaits, the `listCollections` await, one `countDocuments` await per
collection and the `close` awaits of the `finally` block contribute the
snapshots outside `runCollections`. -/
def cloneDatabase (env : CloneEnv) : List CloneJob × CloneJob × ConnLog :=
  if env.sourceConnectOk then
    if env.targetConnectOk then
      let rc := runCollections env.collections (cloningJob env)
      let jf : CloneJob :=
        if rc.2.2 then
          { rc.2.1 with status := .completed, progress := 100 }
        else
          { rc.2.1 with status := .failed,
                        errors := rc.2.1.errors ++ [insertFailedMsg] }
      (initJob :: connectingJob :: connectingJob :: analyzingJob ::
         List.replicate env.collections.length (collectionsJob env) ++
           rc.1 ++ [jf, jf, jf],
       jf, ⟨true, true, true, true⟩)
    else
      ([initJob, connectingJob, connectingJob, failedConnectJob,
         failedConnectJob],
       failedConnectJob, ⟨true, false, true, false⟩)
  else
    ([initJob, connectingJob, failedConnectJob],
     failedConnectJob, ⟨false, false, false, false⟩)

/-- The observable trace of a clone run. -/
def cloneTrace (env : CloneEnv) : List CloneJob := (cloneDatabase env).1

/-- The final job state of a clone run. -/
def cloneFinal (env : CloneEnv) : CloneJob := (cloneDatabase env).2.1

/-- The connection log of a clone run. -/
def cloneConnLog (env : CloneEnv) : ConnLog := (cloneDatabase env).2.2

/-- Position of a status in the documented lifecycle
`starting → connecting → analyzing → cloning → (completed | failed)`;
the two terminal statuses share the final position. -/
def statusRank : Status → Nat
  | .starting => 0
  | .connecting => 1
  | .analyzing => 2
  | .cloning => 3
  | .completed => 4
  | .failed => 4

/-- Whether a status is terminal. -/
def Status.isTerminal : Status → Bool
  | .completed => true
  | .failed => true
  | _ => false

/-- A legal observed transition: the lifecycle position never
decreases, and a terminal status never changes at all. -/
def StatusStep (a b : Status) : Prop :=
  (a.isTerminal = true → b = a) ∧ statusRank a ≤ statusRank b

instance (a b : Status) : Decidable (StatusStep a b) :=
  inferInstanceAs (Decidable ((a.isTerminal = true → b = a) ∧
    statusRank a ≤ statusRank b))

/-- The error messages pushed by the index loop of one collection, in
order: one message per index that is not `_id_` and whose creation
fails (`src/unnamed/part_000:518`). -/
def indexErrMsgs (collName : String) : List SourceIndex → List String
  | [] => []
  | i :: rest =>
      if i.name = "_id_" then indexErrMsgs collName rest
      else if i.createFails then
        ("Failed to create index " ++ i.name ++ " on " ++ collName) ::
          indexErrMsgs collName rest
      else indexErrMsgs collName rest

/-! ## Job tracker (`POST /api/clone-database`, `src/unnamed/part_000:102-137`) -/

/-- The job identifier allocated at creation:
`const jobId = Date.now().toString()` (`src/unnamed/part_000:111`),
as a function of the millisecond clock reading. -/
def jobIdOf (now : Nat) : String := toString now

/-- JavaScript `Map.set` on an association list: replace the value at
an existing key in place, otherwise append the new entry. -/
def mapSet (m : List (String × CloneJob)) (k : String) (v : CloneJob) :
    List (String × CloneJob) :=
  if m.any (fun p => p.1 = k) then
    m.map (fun p => if p.1 = k then (k, v) else p)
  else m ++ [(k, v)]

/-- One `POST /api/clone-database` creation step
(`src/unnamed/part_000:111-127`): derive the id from the clock and
`cloningJobs.set` the fresh job record. -/
def createJob (m : List (String × CloneJob)) (now : Nat) :
    List (String × CloneJob) :=
  mapSet m (jobIdOf now) initJob

/-- The tracker state after a sequence of creations whose `Date.now()`
readings were `ts`, starting from the empty map. -/
def runCreates (ts : List Nat) : List (String × CloneJob) :=
  ts.foldl createJob []

/-! ## Decimal digits of `Nat.repr` (needed to reason about `jobIdOf`) -/

/-- The decimal digit characters of `n`, most significant first: a
fuel-free counterpart of core's `Nat.toDigitsCore`. -/
def decChars (n : Nat) : List Char :=
  if n < 10 then [Nat.digitChar n]
  else decChars (n / 10) ++ [Nat.digitChar (n % 10)]
decreasing_by exact Nat.div_lt_self (by omega) (by norm_num)

/-- Numeric value of a decimal digit character. -/
def digitVal (c : Char) : Nat := c.toNat - 48

/-- Decode a decimal character string back to the number. -/
def decodeChars (cs : List Char) : Nat :=
  cs.foldl (fun a c => 10 * a + digitVal c) 0

/-! ## Schema inferencer (`generateSchema`, `src/unnamed/part_000:18-56`) -/

/-- A JavaScript/BSON value as the program distinguishes them:
the tags of `generateSchema`
(`src/unnamed/part_000:32-37`). -/
inductive JsValue where
  | str (s : String)
  | num (n : Int)
  | bool (b : Bool)
  | null
  | arr (elems : List JsValue)
  | obj (fields : List (String × JsValue))
  | objectId (hex : String)
  | date (ms : Nat)

mutual

/-- Structural equality of values (the driver's equality matching). -/
def JsValue.beq : JsValue → JsValue → Bool
  | .str a, .str b => a == b
  | .num a, .num b => a == b
  | .bool a, .bool b => a == b
  | .null, .null => true
  | .objectId a, .objectId b => a == b
  | .date a, .date b => a == b
  | .arr as, .arr bs => JsValue.beqList as bs
  | .obj as, .obj bs => JsValue.beqFields as bs
  | _, _ => false

/-- Elementwise equality of value lists. -/
def JsValue.beqList : List JsValue → List JsValue → Bool
  | [], [] => true
  | a :: as, b :: bs => JsValue.beq a b && JsValue.beqList as bs
  | _, _ => false

/-- Elementwise equality of field lists. -/
def JsValue.beqFields : List (String × JsValue) → List (String × JsValue) → Bool
  | [], [] => true
  | (k₁, v₁) :: as, (k₂, v₂) :: bs =>
      k₁ == k₂ && JsValue.beq v₁ v₂ && JsValue.beqFields as bs
  | _, _ => false

end

/-- A document: its top-level fields in key order (JavaScript object
keys are unique and iterate in insertion order). -/
abbrev JsDoc := List (String × JsValue)

/-- The type tag computed by the conditional chain at
`src/unnamed/part_000:32-37`, in the same test order: `Array.isArray`,
`null`, `ObjectId`, `Date`, other objects, then `typeof`. -/
def typeTag : JsValue → String
  | .arr _ => "array"
  | .null => "null"
  | .objectId _ => "ObjectId"
  | .date _ => "date"
  | .obj _ => "object"
  | .str _ => "string"
  | .num _ => "number"
  | .bool _ => "boolean"

/-- Per-field accumulator of `generateSchema`
(`src/unnamed/part_000:27`). -/
structure FieldAcc where
  types : List String
  required : Nat
  examples : List JsValue

/-- JavaScript `Set.add` on the insertion-ordered list of type tags. -/
def addTypeTag (ts : List String) (t : String) : List String :=
  if t ∈ ts then ts else ts ++ [t]

/-- One field occurrence (`src/unnamed/part_000:39-45`): add the type
tag, increment `required`, and push the value as an example if fewer
than 3 examples are stored. -/
def updateFieldAcc (acc : FieldAcc) (v : JsValue) : FieldAcc :=
  { types := addTypeTag acc.types (typeTag v)
    required := acc.required + 1
    examples :=
      if acc.examples.length < 3 then acc.examples ++ [v] else acc.examples }

/-- `schema[field]` upsert (`src/unnamed/part_000:26-29`): initialise
the accumulator on first sight of the field (appending it, preserving
first-seen field order), then apply the occurrence. -/
def upsertField : List (String × FieldAcc) → String → JsValue →
    List (String × FieldAcc)
  | [], f, v => [(f, updateFieldAcc ⟨[], 0, []⟩ v)]
  | (f₀, a) :: rest, f, v =>
      if f₀ = f then (f₀, updateFieldAcc a v) :: rest
      else (f₀, a) :: upsertField rest f v

/-- The inner loop over `Object.keys(doc)`
(`src/unnamed/part_000:25-46`). -/
def processDoc (schema : List (String × FieldAcc)) (doc : JsDoc) :
    List (String × FieldAcc) :=
  doc.foldl (fun s p => upsertField s p.1 p.2) schema

/-- One finalised field summary (`src/unnamed/part_000:50-53`). -/
structure FieldSchema where
  types : List String
  required : Nat
  examples : List JsValue
  requiredPercentage : Nat

/-- `generateSchema` (`src/unnamed/part_000:18-56`): empty input yields
the empty mapping; otherwise fold all documents through the field
accumulators and finalise with
`requiredPercentage = Math.round(required / documents.length * 100)`. -/
def generateSchema (documents : List JsDoc) : List (String × FieldSchema) :=
  if documents.length = 0 then []
  else
    (documents.foldl processDoc []).map fun p =>
      (p.1, ⟨p.2.types, p.2.required, p.2.examples,
             mathRound100 p.2.required documents.length⟩)

/-- All values of field `f` across `documents`, in encounter order
(used to state the example-collection property). -/
def fieldValues (documents : List JsDoc) (f : String) : List JsValue :=
  (documents.map
    (fun d => d.filterMap
      (fun p => if p.1 = f then some p.2 else none))).flatten

/-! ## CRUD document routes (`src/unnamed/part_000:227-436`) -/

/-- A stored document: its `_id` (24-character hexadecimal form) and
its other top-level fields. -/
structure StoredDoc where
  id : String
  fields : List (String × JsValue)

/-- The full object view of a stored document (the `_id` field first,
as the driver returns it). -/
def docObj (d : StoredDoc) : JsDoc := ("_id", .objectId d.id) :: d.fields

/-- A request payload that may arrive already structured or as encoded
text (the duck-typed `typeof x === 'string'` checks of the routes). -/
inductive Payload where
  | structured (fields : JsDoc)
  | text (raw : String)

/-- An HTTP-layer outcome: success, a 400 client error, or a 404. -/
inductive Resp (α : Type) where
  | ok (val : α)
  | badRequest (msg : String)
  | notFound (msg : String)

/-- Whether a response is a 400 client error. -/
def Resp.isBadRequest : Resp α → Bool
  | .badRequest _ => true
  | _ => false

/-- Whether a response is a success. -/
def Resp.isOk : Resp α → Bool
  | .ok _ => true
  | _ => false

/-- Modelled contract of the bson `ObjectId` string constructor used at
`src/unnamed/part_000:346,383,418`: it throws (caught by the route's
`catch`, hence a 400) unless the string is 24 hexadecimal characters. -/
def isHexChar (c : Char) : Bool :=
  (('0' ≤ c && c ≤ '9') || ('a' ≤ c && c ≤ 'f') || ('A' ≤ c && c ≤ 'F'))

/-- Validity of a document identifier for the `ObjectId` constructor. -/
def isValidObjectId (s : String) : Bool :=
  s.length = 24 && s.data.all isHexChar

/-- The error message the bson `ObjectId` constructor throws for a
malformed string, surfaced by the route's `catch` as a 400. -/
def objectIdErrorMsg : String :=
  "input must be a 24 character hex string, 12 byte Uint8Array, or an integer"

/-- `obj[k] = v` on a field list with unique keys: replace the first
occurrence, or append. -/
def setField : List (String × JsValue) → String → JsValue →
    List (String × JsValue)
  | [], k, v => [(k, v)]
  | (k₀, v₀) :: fs, k, v =>
      if k₀ = k then (k, v) :: fs else (k₀, v₀) :: setField fs k v

/-- MongoDB `$set` with the parsed updates object: write each named
top-level field in order (`src/unnamed/part_000:345-348`). -/
def applySet (fields updates : List (String × JsValue)) :
    List (String × JsValue) :=
  updates.foldl (fun fs p => setField fs p.1 p.2) fields

/-- `updateOne` on the collection: update the first document whose
`_id` matches, leaving every other document untouched. -/
def updateFirstMatch : List StoredDoc → String →
    List (String × JsValue) → List StoredDoc
  | [], _, _ => []
  | d :: ds, i, u =>
      if d.id = i then { d with fields := applySet d.fields u } :: ds
      else d :: updateFirstMatch ds i u

/-- `deleteOne` on the collection: remove the first document whose
`_id` matches. -/
def deleteFirstMatch : List StoredDoc → String → List StoredDoc
  | [], _ => []
  | d :: ds, i => if d.id = i then ds else d :: deleteFirstMatch ds i

/-- `PUT /api/document/update` (`src/unnamed/part_000:321-367`):
parse string updates (400 on failure, before any database call), then
`updateOne({_id: new ObjectId(documentId)}, {$set: parsedUpdates})`;
a malformed id throws inside the `try` and yields a 400;
`matchedCount === 0` yields a 404.  `jsonParse` is the external
`JSON.parse` restricted to object results.  Returns the response and
the collection afterwards. -/
def updateDocumentRoute (jsonParse : String → Option JsDoc)
    (col : List StoredDoc) (documentId : String) (updates : Payload) :
    Resp Unit × List StoredDoc :=
  let parsed : Option JsDoc :=
    match updates with
    | .structured v => some v
    | .text s => jsonParse s
  match parsed with
  | none => (.badRequest "Invalid JSON updates", col)
  | some u =>
      if isValidObjectId documentId then
        if col.any (fun d => d.id = documentId) then
          (.ok (), updateFirstMatch col documentId u)
        else (.notFound "Document not found", col)
      else (.badRequest objectIdErrorMsg, col)

/-- `DELETE /api/document/delete` (`src/unnamed/part_000:370-402`). -/
def deleteDocumentRoute (col : List StoredDoc) (documentId : String) :
    Resp Unit × List StoredDoc :=
  if isValidObjectId documentId then
    if col.any (fun d => d.id = documentId) then
      (.ok (), deleteFirstMatch col documentId)
    else (.notFound "Document not found", col)
  else (.badRequest objectIdErrorMsg, col)

/-- `POST /api/document/get` (`src/unnamed/part_000:405-436`). -/
def getDocumentRoute (col : List StoredDoc) (documentId : String) :
    Resp StoredDoc :=
  if isValidObjectId documentId then
    match col.find? (fun d => d.id = documentId) with
    | some d => .ok d
    | none => .notFound "Document not found"
  else .badRequest objectIdErrorMsg

/-- `POST /api/document/create` (`src/unnamed/part_000:281-318`):
parse a string document (400 `Invalid JSON document` on failure, no
write), then `insertOne`.  `newId` is the `_id` the driver generates
for the inserted document. -/
def createDocumentRoute (jsonParse : String → Option JsDoc)
    (newId : String) (col : List StoredDoc) (document : Payload) :
    Resp String × List StoredDoc :=
  let parsed : Option JsDoc :=
    match document with
    | .structured v => some v
    | .text s => jsonParse s
  match parsed with
  | none => (.badRequest "Invalid JSON document", col)
  | some v => (.ok newId, col ++ [⟨newId, v⟩])

/-- JavaScript falsiness of `s.trim()` (`src/unnamed/part_000:243`):
the trimmed string is empty exactly when every character of `s` is
whitespace. -/
def isBlank (s : String) : Bool := s.data.all Char.isWhitespace

/-- Top-level equality filter semantics of `collection.find(filter)`
for the plain-equality filters the route is modelled with. -/
def matchesFilter (f : JsDoc) (d : StoredDoc) : Bool :=
  f.all (fun p =>
    match List.lookup p.1 (docObj d) with
    | some v => JsValue.beq v p.2
    | none => false)

/-- `Math.ceil(a / b)` on naturals. -/
def jsCeilDiv (a b : Nat) : Nat := (a + b - 1) / b

/-- The pagination block of the documents listing
(`src/unnamed/part_000:264-269`). -/
structure Pagination where
  currentPage : Nat
  totalPages : Nat
  totalDocuments : Nat
  documentsPerPage : Nat
deriving DecidableEq, Repr

/-- The success body of the documents listing. -/
structure DocumentsResult where
  documents : List StoredDoc
  pagination : Pagination
  schema : List (String × FieldSchema)

/-- `POST /api/collection/documents` (`src/unnamed/part_000:227-278`):
a string filter with non-blank trim is `JSON.parse`d and **silently
replaced by the empty filter on parse failure**
(`src/unnamed/part_000:243-249`); a blank string filter is handed to
the driver unparsed, which rejects it (modelled as the 400 of the
route's `catch`).  Then page the matching documents
(`skip = (page-1)*limit`), and infer the schema from the first
`min(100, totalCount)` documents of the *unfiltered* collection. -/
def documentsRoute (jsonParse : String → Option JsDoc)
    (col : List StoredDoc) (page limit : Nat) (filter : Payload) :
    Resp DocumentsResult :=
  let parsedFilter : Option JsDoc :=
    match filter with
    | .structured v => some v
    | .text s =>
        if isBlank s then none
        else some ((jsonParse s).getD [])
  match parsedFilter with
  | none => .badRequest "invalid filter"
  | some pf =>
      let matched := col.filter (matchesFilter pf)
      let totalCount := matched.length
      let docs := (matched.drop ((page - 1) * limit)).take limit
      let sampleDocs := col.take (min 100 totalCount)
      .ok
        { documents := docs
          pagination :=
            { currentPage := page
              totalPages := jsCeilDiv totalCount limit
              totalDocuments := totalCount
              documentsPerPage := limit }
          schema := generateSchema (sampleDocs.map docObj) }

/-! # Lemmas about the clone engine -/

lemma batchSizes_sum (n : Nat) : (batchSizes n).sum = n := by
  induction n using Nat.strong_induction_on with
  | _ n ih =>
    rw [batchSizes]
    split
    · simp [*]
    · rename_i h
      rw [List.sum_cons,
        ih (n - 1000) (Nat.sub_lt (Nat.pos_of_ne_zero h) (by norm_num))]
      omega

lemma runBatches_ok_of_none :
    ∀ (sizes : List Nat) (idx : Nat) (job : CloneJob),
      (runBatches none idx sizes job).2.2 = true := by
  intro sizes
  induction sizes with
  | nil => intro idx job; rfl
  | cons s rest ih =>
      intro idx job
      simp only [runBatches, reduceCtorEq, if_false]
      exact ih (idx + 1) _

lemma runBatches_ok_spec (f : Option Nat) :
    ∀ (sizes : List Nat) (idx : Nat) (job : CloneJob),
      (runBatches f idx sizes job).2.2 = true →
      (runBatches f idx sizes job).2.1.processedDocuments
          = job.processedDocuments + sizes.sum ∧
      (runBatches f idx sizes job).2.1.status = job.status ∧
      (runBatches f idx sizes job).2.1.errors = job.errors ∧
      (runBatches f idx sizes job).2.1.totalDocuments = job.totalDocuments ∧
      (runBatches f idx sizes job).2.1.processedCollections
          = job.processedCollections ∧
      (runBatches f idx sizes job).2.1.totalCollections
          = job.totalCollections ∧
      (runBatches f idx sizes job).2.1.collections = job.collections ∧
      (runBatches f idx sizes job).2.1.currentCollection
          = job.currentCollection := by
  intro sizes
  induction sizes with
  | nil => intro idx job _; simp [runBatches]
  | cons s rest ih =>
      intro idx job hok
      by_cases h : f = some idx
      · simp [runBatches, h] at hok
      · simp only [runBatches, h, if_false] at hok ⊢
        obtain ⟨h1, h2, h3, h4, h5, h6, h7, h8⟩ := ih (idx + 1) _ hok
        refine ⟨?_, h2, h3, h4, h5, h6, h7, h8⟩
        rw [h1]
        simp
        omega

lemma runBatches_inv (P : CloneJob → Prop)
    (hstep : ∀ (j : CloneJob) (s : Nat), P j →
      P { j with processedDocuments := j.processedDocuments + s,
                 progress := mathRound100 (j.processedDocuments + s)
                   j.totalDocuments }) :
    ∀ (f : Option Nat) (sizes : List Nat) (idx : Nat) (job : CloneJob),
      P job →
      (∀ x ∈ (runBatches f idx sizes job).1, P x) ∧
      P (runBatches f idx sizes job).2.1 := by
  intro f sizes
  induction sizes with
  | nil => intro idx job hP; exact ⟨by simp [runBatches], hP⟩
  | cons s rest ih =>
      intro idx job hP
      by_cases h : f = some idx
      · refine ⟨?_, by simp [runBatches, h]; exact hP⟩
        intro x hx
        simp [runBatches, h] at hx
        exact hx ▸ hP
      · have hq := ih (idx + 1) _ (hstep job s hP)
        refine ⟨?_, by simp only [runBatches, h, if_false]; exact hq.2⟩
        intro x hx
        simp only [runBatches, h, if_false, List.mem_cons] at hx
        rcases hx with rfl | hx
        · exact hP
        · exact hq.1 x hx

lemma runIndexes_final (collName : String) :
    ∀ (idxs : List SourceIndex) (job : CloneJob),
      (runIndexes collName idxs job).2
        = { job with errors := job.errors ++ indexErrMsgs collName idxs } := by
  intro idxs
  induction idxs with
  | nil => intro job; simp [runIndexes, indexErrMsgs]
  | cons i rest ih =>
      intro job
      by_cases h : i.name = "_id_"
      · simp [runIndexes, indexErrMsgs, h, ih]
      · by_cases hf : i.createFails
        · simp [runIndexes, indexErrMsgs, h, hf, ih]
        · simp [runIndexes, indexErrMsgs, h, hf, ih]

lemma runIndexes_inv (P : CloneJob → Prop)
    (herr : ∀ (j : CloneJob) (m : String), P j →
      P { j with errors := j.errors ++ [m] }) (collName : String) :
    ∀ (idxs : List SourceIndex) (job : CloneJob), P job →
      (∀ x ∈ (runIndexes collName idxs job).1, P x) ∧
      P (runIndexes collName idxs job).2 := by
  intro idxs
  induction idxs with
  | nil => intro job hP; exact ⟨by simp [runIndexes], hP⟩
  | cons i rest ih =>
      intro job hP
      by_cases h : i.name = "_id_"
      · simpa [runIndexes, h] using ih job hP
      · have hP1 : P (if i.createFails then
            { job with errors := job.errors ++
                ["Failed to create index " ++ i.name ++ " on " ++ collName] }
            else job) := by
          by_cases hf : i.createFails
          · simpa [hf] using herr job _ hP
          · simpa [hf] using hP
        have hq := ih _ hP1
        refine ⟨?_, by simp only [runIndexes, h, if_false]; exact hq.2⟩
        intro x hx
        simp only [runIndexes, h, if_false, List.mem_cons] at hx
        rcases hx with rfl | hx
        · exact hP
        · exact hq.1 x hx

lemma runCollections_inv (P : CloneJob → Prop)
    (hcur : ∀ (j : CloneJob) (name : String), P j →
      P { j with currentCollection := some name })
    (hstep : ∀ (j : CloneJob) (s : Nat), P j →
      P { j with processedDocuments := j.processedDocuments + s,
                 progress := mathRound100 (j.processedDocuments + s)
                   j.totalDocuments })
    (herr : ∀ (j : CloneJob) (m : String), P j →
      P { j with errors := j.errors ++ [m] })
    (hinc : ∀ (j : CloneJob), P j →
      P { j with processedCollections := j.processedCollections + 1 }) :
    ∀ (cols : List SourceCollection) (job : CloneJob), P job →
      (∀ x ∈ (runCollections cols job).1, P x) ∧
      P (runCollections cols job).2.1 := by
  intro cols
  induction cols with
  | nil => intro job hP; exact ⟨by simp [runCollections], hP⟩
  | cons c rest ih =>
      intro job hP
      have hP1 : P { job with currentCollection := some c.name } :=
        hcur job c.name hP
      have hb := runBatches_inv P hstep c.failAtBatch
        (batchSizes c.docCount) 0 _ hP1
      by_cases hok : (runBatches c.failAtBatch 0 (batchSizes c.docCount)
          { job with currentCollection := some c.name }).2.2 = true
      · have hi := runIndexes_inv P herr c.name c.indexes _ hb.2
        have hr := ih _ (hinc _ hi.2)
        constructor
        · simp only [runCollections, hok, if_true, List.forall_mem_cons,
            List.forall_mem_append]
          exact ⟨⟨⟨hP1, ⟨hP1, hb.1⟩⟩, ⟨hb.2, hi.1⟩⟩, hr.1⟩
        · simp only [runCollections, hok, if_true]
          exact hr.2
      · rw [Bool.not_eq_true] at hok
        constructor
        · simp only [runCollections, hok, Bool.false_eq_true, if_false,
            List.forall_mem_cons]
          exact ⟨hP1, hP1, hb.1⟩
        · simp only [runCollections, hok, Bool.false_eq_true, if_false]
          exact hb.2

lemma runCollections_ok_spec :
    ∀ (cols : List SourceCollection) (job : CloneJob),
      (runCollections cols job).2.2 = true →
      (runCollections cols job).2.1.processedCollections
          = job.processedCollections + cols.length ∧
      (runCollections cols job).2.1.processedDocuments
          = job.processedDocuments + (cols.map (fun c => c.docCount)).sum ∧
      (runCollections cols job).2.1.status = job.status ∧
      (runCollections cols job).2.1.totalDocuments = job.totalDocuments ∧
      (runCollections cols job).2.1.totalCollections = job.totalCollections ∧
      (runCollections cols job).2.1.collections = job.collections ∧
      (runCollections cols job).2.1.errors = job.errors ++
        (cols.map (fun c => indexErrMsgs c.name c.indexes)).flatten := by
  intro cols
  induction cols with
  | nil => intro job _; simp [runCollections]
  | cons c rest ih =>
      intro job hok
      by_cases hb : (runBatches c.failAtBatch 0 (batchSizes c.docCount)
          { job with currentCollection := some c.name }).2.2 = true
      · obtain ⟨b1, b2, b3, b4, b5, b6, b7, b8⟩ :=
          runBatches_ok_spec c.failAtBatch (batchSizes c.docCount) 0
            { job with currentCollection := some c.name } hb
        simp only [runCollections, hb, if_true] at hok ⊢
        rw [runIndexes_final c.name c.indexes] at hok ⊢
        obtain ⟨r1, r2, r3, r4, r5, r6, r7⟩ := ih _ hok
        simp only [r1, r2, r3, r4, r5, r6, r7] at *
        refine ⟨by simp [b5]; omega, ?_, ?_, ?_, ?_, ?_, ?_⟩
        · simp [b1, batchSizes_sum]; omega
        · simp [b2]
        · simp [b4]
        · simp [b6]
        · simp [b7]
        · simp [b3, List.append_assoc]
      · rw [Bool.not_eq_true] at hb
        simp [runCollections, hb] at hok
lemma runCollections_ok_of :
    ∀ (cols : List SourceCollection),
      (∀ c ∈ cols, c.failAtBatch = none ∨ c.docCount = 0) →
      ∀ (job : CloneJob), (runCollections cols job).2.2 = true := by
  intro cols
  induction cols with
  | nil => intro _ job; rfl
  | cons c rest ih =>
      intro hb job
      have hok : (runBatches c.failAtBatch 0 (batchSizes c.docCount)
          { job with currentCollection := some c.name }).2.2 = true := by
        rcases hb c (List.mem_cons_self c rest) with h | h
        · rw [h]; exact runBatches_ok_of_none _ _ _
        · rw [h]
          rw [batchSizes]
          rfl
      simp only [runCollections, hok, if_true]
      exact ih (fun x hx => hb x (List.mem_cons_of_mem c hx)) _

lemma mathRound100_zero_num (d : Nat) (hd : d ≠ 0) : mathRound100 0 d = 0 := by
  unfold mathRound100
  rw [Nat.mul_zero, Nat.zero_add]
  exact Nat.div_eq_of_lt (by omega)

lemma mathRound100_self (d : Nat) (hd : d ≠ 0) : mathRound100 d d = 100 := by
  unfold mathRound100
  have h : 200 * d + d = 201 * d := by ring
  rw [h]
  exact Nat.div_eq_of_lt_le (by omega) (by omega)

/-! # The claims about the clone engine -/

/-- **C1.** A clone run whose connections succeed and none of whose
insert batches fails reaches `completed` with
`processedCollections` equal to the number of source collections and
`processedDocuments` equal to the total number of source documents. -/
theorem clone_completed_counters (env : CloneEnv)
    (hs : env.sourceConnectOk = true) (ht : env.targetConnectOk = true)
    (hb : ∀ c ∈ env.collections, c.failAtBatch = none) :
    (cloneFinal env).status = .completed ∧
    (cloneFinal env).totalCollections = env.collections.length ∧
    (cloneFinal env).processedCollections = env.collections.length ∧
    (cloneFinal env).totalDocuments = totalDocsOf env ∧
    (cloneFinal env).processedDocuments = totalDocsOf env := by
  have hok := runCollections_ok_of env.collections
    (fun c hc => Or.inl (hb c hc)) (cloningJob env)
  obtain ⟨r1, r2, r3, r4, r5, r6, r7⟩ :=
    runCollections_ok_spec env.collections (cloningJob env) hok
  simp only [cloneFinal, cloneDatabase, hs, ht, if_true, hok]
  refine ⟨?_, ?_, ?_, ?_, ?_⟩
  · simp
  · show (runCollections env.collections (cloningJob env)).2.1.totalCollections
      = env.collections.length
    rw [r5]
    simp [cloningJob, collectionsJob, analyzingJob, connectingJob, initJob]
  · show (runCollections env.collections
        (cloningJob env)).2.1.processedCollections = env.collections.length
    rw [r1]
    simp [cloningJob, collectionsJob, analyzingJob, connectingJob, initJob]
  · show (runCollections env.collections (cloningJob env)).2.1.totalDocuments
      = totalDocsOf env
    rw [r4]
    simp [cloningJob, collectionsJob, analyzingJob, connectingJob, initJob]
  · show (runCollections env.collections
        (cloningJob env)).2.1.processedDocuments = totalDocsOf env
    rw [r2]
    simp [cloningJob, collectionsJob, analyzingJob, connectingJob, initJob,
      totalDocsOf]

/-- Witness for C1 on a source database with two collections holding
1500 and 3 documents. -/
theorem clone_completed_counters_witness :
    (cloneFinal ⟨true, true, [⟨"users", 1500, [⟨"email_1", false⟩], none⟩,
        ⟨"posts", 3, [], none⟩]⟩).status = .completed ∧
    (cloneFinal ⟨true, true, [⟨"users", 1500, [⟨"email_1", false⟩], none⟩,
        ⟨"posts", 3, [], none⟩]⟩).totalCollections = 2 ∧
    (cloneFinal ⟨true, true, [⟨"users", 1500, [⟨"email_1", false⟩], none⟩,
        ⟨"posts", 3, [], none⟩]⟩).processedCollections = 2 ∧
    (cloneFinal ⟨true, true, [⟨"users", 1500, [⟨"email_1", false⟩], none⟩,
        ⟨"posts", 3, [], none⟩]⟩).totalDocuments = 1503 ∧
    (cloneFinal ⟨true, true, [⟨"users", 1500, [⟨"email_1", false⟩], none⟩,
        ⟨"posts", 3, [], none⟩]⟩).processedDocuments = 1503 :=
  clone_completed_counters
    ⟨true, true, [⟨"users", 1500, [⟨"email_1", false⟩], none⟩,
        ⟨"posts", 3, [], none⟩]⟩ rfl rfl (by decide)

/-- **C9.** On every exit path of a clone run, exactly the connections
that were opened are closed by the `finally` block. -/
theorem clone_releases_connections (env : CloneEnv) :
    (cloneConnLog env).sourceClosed = (cloneConnLog env).sourceOpened ∧
    (cloneConnLog env).targetClosed = (cloneConnLog env).targetOpened := by
  by_cases hs : env.sourceConnectOk = true
  · by_cases ht : env.targetConnectOk = true
    · simp [cloneConnLog, cloneDatabase, hs, ht]
    · rw [Bool.not_eq_true] at ht
      simp [cloneConnLog, cloneDatabase, hs, ht]
  · rw [Bool.not_eq_true] at hs
    simp [cloneConnLog, cloneDatabase, hs]

/-- **C5.** With both connections up and no fatal batch failure, every
failing index recreation contributes exactly one message to `errors`
(in processing order), the job never shows status `failed` at any
observation point, and it still ends `completed`. -/
theorem clone_index_failure_nonfatal (env : CloneEnv)
    (hs : env.sourceConnectOk = true) (ht : env.targetConnectOk = true)
    (hb : ∀ c ∈ env.collections, c.failAtBatch = none) :
    (cloneFinal env).status = .completed ∧
    (cloneFinal env).errors =
      (env.collections.map (fun c => indexErrMsgs c.name c.indexes)).flatten ∧
    (∀ j ∈ cloneTrace env, j.status ≠ .failed) := by
  have hok := runCollections_ok_of env.collections
    (fun c hc => Or.inl (hb c hc)) (cloningJob env)
  obtain ⟨r1, r2, r3, r4, r5, r6, r7⟩ :=
    runCollections_ok_spec env.collections (cloningJob env) hok
  have hinv := runCollections_inv (fun j => j.status = .cloning)
    (fun j _ h => h) (fun j _ h => h) (fun j _ h => h) (fun j h => h)
    env.collections (cloningJob env) rfl
  refine ⟨?_, ?_, ?_⟩
  · simp only [cloneFinal, cloneDatabase, hs, ht, if_true, hok]
  · simp only [cloneFinal, cloneDatabase, hs, ht, if_true, hok]
    rw [r7]; rfl
  · intro j hj
    simp only [cloneTrace, cloneDatabase, hs, ht, if_true, hok] at hj
    rcases List.mem_cons.mp hj with rfl | hj
    · decide
    rcases List.mem_cons.mp hj with rfl | hj
    · decide
    rcases List.mem_cons.mp hj with rfl | hj
    · decide
    rcases List.mem_cons.mp hj with rfl | hj
    · decide
    rcases List.mem_append.mp hj with hj | hj
    · rcases List.mem_append.mp hj with hj | hj
      · rw [List.eq_of_mem_replicate hj]
        simp [collectionsJob, analyzingJob, connectingJob, initJob]
      · rw [hinv.1 j hj]
        simp
    · rcases List.mem_cons.mp hj with rfl | hj
      · simp
      rcases List.mem_cons.mp hj with rfl | hj
      · simp
      rcases List.mem_cons.mp hj with rfl | hj
      · simp
      exact absurd hj (List.not_mem_nil j)

/-- Witness for C5: one failing index (`tags_1` on `posts`) alongside a
succeeding one; the run still completes with exactly one error. -/
theorem clone_index_failure_nonfatal_witness :
    (cloneFinal ⟨true, true, [⟨"posts", 5,
        [⟨"_id_", false⟩, ⟨"tags_1", true⟩, ⟨"title_1", false⟩],
        none⟩]⟩).status = .completed ∧
    (cloneFinal ⟨true, true, [⟨"posts", 5,
        [⟨"_id_", false⟩, ⟨"tags_1", true⟩, ⟨"title_1", false⟩],
        none⟩]⟩).errors =
      (([⟨"posts", 5, [⟨"_id_", false⟩, ⟨"tags_1", true⟩,
          ⟨"title_1", false⟩], none⟩] : List SourceCollection).map
        (fun c => indexErrMsgs c.name c.indexes)).flatten ∧
    (∀ j ∈ cloneTrace ⟨true, true, [⟨"posts", 5,
        [⟨"_id_", false⟩, ⟨"tags_1", true⟩, ⟨"title_1", false⟩],
        none⟩]⟩, j.status ≠ .failed) :=
  clone_index_failure_nonfatal
    ⟨true, true, [⟨"posts", 5,
      [⟨"_id_", false⟩, ⟨"tags_1", true⟩, ⟨"title_1", false⟩], none⟩]⟩
    rfl rfl (by decide)

lemma docCounts_zero :
    ∀ (cols : List SourceCollection),
      (cols.map (fun c => c.docCount)).sum = 0 → ∀ c ∈ cols, c.docCount = 0 := by
  intro cols
  induction cols with
  | nil => simp
  | cons c rest ih =>
      intro h x hx
      rw [List.map_cons, List.sum_cons] at h
      rcases List.mem_cons.mp hx with rfl | hx
      · omega
      · exact ih (by omega) x hx

/-- **C2.** In a run whose connections succeed, at every observation
point at which `totalDocuments` is known (nonzero), `progress` equals
`Math.round(processedDocuments / totalDocuments * 100)`; and when the
source holds zero documents the run performs no division (structurally:
a collection with no documents never enters the batch loop) and ends
`completed` with `progress = 100`. -/
theorem clone_progress_formula (env : CloneEnv)
    (hs : env.sourceConnectOk = true) (ht : env.targetConnectOk = true) :
    (∀ j ∈ cloneTrace env, j.totalDocuments ≠ 0 →
        j.progress = mathRound100 j.processedDocuments j.totalDocuments) ∧
    (totalDocsOf env = 0 →
        (cloneFinal env).status = .completed ∧
        (cloneFinal env).progress = 100) := by
  have hinv := runCollections_inv
    (fun j => j.totalDocuments = totalDocsOf env ∧
      (totalDocsOf env ≠ 0 →
        j.progress = mathRound100 j.processedDocuments (totalDocsOf env)))
    (fun j _ h => h)
    (fun j s h => ⟨h.1, fun hD => by
      show mathRound100 (j.processedDocuments + s) j.totalDocuments
        = mathRound100 (j.processedDocuments + s) (totalDocsOf env)
      rw [h.1]⟩)
    (fun j _ h => h) (fun j h => h)
    env.collections (cloningJob env)
    ⟨rfl, fun hD => (mathRound100_zero_num _ hD).symm⟩
  constructor
  · intro j hj
    simp only [cloneTrace, cloneDatabase, hs, ht, if_true] at hj
    rcases List.mem_cons.mp hj with rfl | hj
    · intro h; exact absurd rfl h
    rcases List.mem_cons.mp hj with rfl | hj
    · intro h; exact absurd rfl h
    rcases List.mem_cons.mp hj with rfl | hj
    · intro h; exact absurd rfl h
    rcases List.mem_cons.mp hj with rfl | hj
    · intro h; exact absurd rfl h
    rcases List.mem_append.mp hj with hj | hj
    · rcases List.mem_append.mp hj with hj | hj
      · rw [List.eq_of_mem_replicate hj]
        intro h; exact absurd rfl h
      · obtain ⟨h1, h2⟩ := hinv.1 j hj
        intro htd
        rw [h1] at htd ⊢
        exact h2 htd
    · by_cases hok : (runCollections env.collections (cloningJob env)).2.2
          = true
      all_goals (
        first
          | (rw [Bool.not_eq_true] at hok
             simp only [hok, Bool.false_eq_true, if_false] at hj)
          | simp only [hok, if_true] at hj)
      · obtain ⟨b1, b2, b3, b4, b5, b6, b7⟩ :=
          runCollections_ok_spec env.collections (cloningJob env) hok
        obtain ⟨h1, h2⟩ := hinv.2
        have hjeq : j = { (runCollections env.collections
            (cloningJob env)).2.1 with
            status := Status.completed, progress := 100 } := by
          rcases List.mem_cons.mp hj with rfl | hj
          · rfl
          rcases List.mem_cons.mp hj with rfl | hj
          · rfl
          rcases List.mem_cons.mp hj with rfl | hj
          · rfl
          exact absurd hj (List.not_mem_nil j)
        rw [hjeq]
        intro htd
        show 100 = mathRound100 (runCollections env.collections
          (cloningJob env)).2.1.processedDocuments
          (runCollections env.collections (cloningJob env)).2.1.totalDocuments
        have htd2 : totalDocsOf env ≠ 0 := by
          rw [h1] at htd; exact htd
        have hpd : (runCollections env.collections
            (cloningJob env)).2.1.processedDocuments = totalDocsOf env := by
          rw [b2]
          simp [cloningJob, collectionsJob, analyzingJob, connectingJob,
            initJob, totalDocsOf]
        rw [hpd, h1]
        exact (mathRound100_self _ htd2).symm
      · obtain ⟨h1, h2⟩ := hinv.2
        have hjeq : j = { (runCollections env.collections
            (cloningJob env)).2.1 with
            status := Status.failed,
            errors := (runCollections env.collections
              (cloningJob env)).2.1.errors ++ [insertFailedMsg] } := by
          rcases List.mem_cons.mp hj with rfl | hj
          · rfl
          rcases List.mem_cons.mp hj with rfl | hj
          · rfl
          rcases List.mem_cons.mp hj with rfl | hj
          · rfl
          exact absurd hj (List.not_mem_nil j)
        rw [hjeq]
        intro htd
        show (runCollections env.collections (cloningJob env)).2.1.progress
          = mathRound100 (runCollections env.collections
              (cloningJob env)).2.1.processedDocuments
            (runCollections env.collections
              (cloningJob env)).2.1.totalDocuments
        have htd2 : totalDocsOf env ≠ 0 := by
          rw [h1] at htd; exact htd
        rw [h1]
        exact h2 htd2
  · intro hD
    have hok := runCollections_ok_of env.collections
      (fun c hc => Or.inr (docCounts_zero env.collections hD c hc))
      (cloningJob env)
    constructor
    · simp only [cloneFinal, cloneDatabase, hs, ht, if_true, hok]
    · simp only [cloneFinal, cloneDatabase, hs, ht, if_true, hok]

/-- Witness for C2: a run over one collection of 150 documents (the
per-batch `progress` values are exercised), and implicitly the theorem
applied with both hypotheses discharged. -/
theorem clone_progress_formula_witness :
    (∀ j ∈ cloneTrace ⟨true, true, [⟨"users", 150, [], none⟩]⟩,
        j.totalDocuments ≠ 0 →
        j.progress = mathRound100 j.processedDocuments j.totalDocuments) ∧
    (totalDocsOf ⟨true, true, [⟨"users", 150, [], none⟩]⟩ = 0 →
        (cloneFinal ⟨true, true, [⟨"users", 150, [], none⟩]⟩).status
          = .completed ∧
        (cloneFinal ⟨true, true, [⟨"users", 150, [], none⟩]⟩).progress
          = 100) :=
  clone_progress_formula ⟨true, true, [⟨"users", 150, [], none⟩]⟩ rfl rfl

lemma statusStep_refl (s : Status) : StatusStep s s :=
  ⟨fun _ => rfl, le_refl _⟩

lemma statusStep_of_not_terminal (a b : Status) (ha : a.isTerminal = false)
    (h : statusRank a ≤ statusRank b) : StatusStep a b :=
  ⟨fun ht => absurd ht (by rw [ha]; exact Bool.false_ne_true), h⟩

lemma chain'_const_status (l : List CloneJob) (s : Status)
    (h : ∀ x ∈ l, x.status = s) :
    l.Chain' (fun a b => StatusStep a.status b.status) := by
  induction l with
  | nil => exact List.chain'_nil
  | cons a t ih =>
      cases t with
      | nil => exact List.chain'_singleton a
      | cons b u =>
          rw [List.chain'_cons]
          refine ⟨?_, ih (fun x hx => h x (List.mem_cons_of_mem a hx))⟩
          rw [h a (List.mem_cons_self _ _),
            h b (List.mem_cons_of_mem a (List.mem_cons_self _ _))]
          exact statusStep_refl s

lemma chain'_statusStep_append (l₁ l₂ : List CloneJob)
    (h₁ : l₁.Chain' (fun a b => StatusStep a.status b.status))
    (h₂ : l₂.Chain' (fun a b => StatusStep a.status b.status))
    (hb : ∀ x ∈ l₁, ∀ y ∈ l₂, StatusStep x.status y.status) :
    (l₁ ++ l₂).Chain' (fun a b => StatusStep a.status b.status) :=
  List.Chain'.append h₁ h₂ (fun x hx y hy =>
    hb x (List.mem_of_mem_getLast? hx) y (List.mem_of_mem_head? hy))

lemma chain'_cloneTrace_core (env : CloneEnv) (jf : CloneJob)
    (hjf : jf.status = .completed ∨ jf.status = .failed) :
    (initJob :: connectingJob :: connectingJob :: analyzingJob ::
      List.replicate env.collections.length (collectionsJob env) ++
        (runCollections env.collections (cloningJob env)).1 ++
        [jf, jf, jf]).Chain'
      (fun a b => StatusStep a.status b.status) := by
  have hinv := runCollections_inv (fun j => j.status = .cloning)
    (fun j _ h => h) (fun j _ h => h) (fun j _ h => h) (fun j h => h)
    env.collections (cloningJob env) rfl
  have hjfrank : statusRank jf.status = 4 := by
    rcases hjf with h | h <;> rw [h] <;> rfl
  have hjfs : ∀ y ∈ [jf, jf, jf], y.status = jf.status := by
    intro y hy
    rcases List.mem_cons.mp hy with rfl | hy
    · rfl
    rcases List.mem_cons.mp hy with rfl | hy
    · rfl
    rcases List.mem_cons.mp hy with rfl | hy
    · rfl
    exact absurd hy (List.not_mem_nil y)
  have hrest : ∀ y ∈ List.replicate env.collections.length
        (collectionsJob env) ++
        ((runCollections env.collections (cloningJob env)).1 ++
          [jf, jf, jf]),
      y.status = .analyzing ∨ y.status = .cloning ∨ y.status = jf.status := by
    intro y hy
    rcases List.mem_append.mp hy with hy | hy
    · exact Or.inl (by rw [List.eq_of_mem_replicate hy]; rfl)
    rcases List.mem_append.mp hy with hy | hy
    · exact Or.inr (Or.inl (hinv.1 y hy))
    · exact Or.inr (Or.inr (hjfs y hy))
  have hfwd : ∀ y : Status,
      (y = .analyzing ∨ y = .cloning ∨ y = jf.status) →
      ∀ x : Status, x.isTerminal = false → statusRank x ≤ 2 →
      StatusStep x y := by
    intro y hy x hxt hxr
    refine statusStep_of_not_terminal x y hxt ?_
    rcases hy with rfl | rfl | rfl
    · exact hxr
    · exact le_trans hxr (by decide)
    · rw [hjfrank]; omega
  rw [List.append_assoc]
  show ([initJob, connectingJob, connectingJob, analyzingJob] ++
    (List.replicate env.collections.length (collectionsJob env) ++
      ((runCollections env.collections (cloningJob env)).1 ++
        [jf, jf, jf]))).Chain' (fun a b => StatusStep a.status b.status)
  apply chain'_statusStep_append
  · rw [List.chain'_cons, List.chain'_cons, List.chain'_cons]
    exact ⟨by decide, by decide, by decide, List.chain'_singleton _⟩
  · apply chain'_statusStep_append
    · exact chain'_const_status _ .analyzing
        (fun x hx => by rw [List.eq_of_mem_replicate hx]; rfl)
    · apply chain'_statusStep_append
      · exact chain'_const_status _ .cloning hinv.1
      · exact chain'_const_status _ jf.status hjfs
      · intro x hx y hy
        rw [hinv.1 x hx, hjfs y hy]
        rcases hjf with h | h <;> rw [h] <;> decide
    · intro x hx y hy
      rcases List.mem_append.mp hy with hy | hy
      · rw [List.eq_of_mem_replicate hx, hinv.1 y hy]
        show StatusStep Status.analyzing Status.cloning
        decide
      · rw [List.eq_of_mem_replicate hx, hjfs y hy]
        show StatusStep Status.analyzing jf.status
        rcases hjf with h | h <;> rw [h] <;> decide
  · intro x hx y hy
    have hy' := hrest y hy
    have hx' : x.status = .starting ∨ x.status = .connecting ∨
        x.status = .analyzing := by
      rcases List.mem_cons.mp hx with rfl | hx
      · exact Or.inl rfl
      rcases List.mem_cons.mp hx with rfl | hx
      · exact Or.inr (Or.inl rfl)
      rcases List.mem_cons.mp hx with rfl | hx
      · exact Or.inr (Or.inl rfl)
      rcases List.mem_cons.mp hx with rfl | hx
      · exact Or.inr (Or.inr rfl)
      exact absurd hx (List.not_mem_nil x)
    rcases hx' with h | h | h <;>
      (rw [h]; exact hfwd y.status hy' _ rfl (by decide))

/-- **C3.** Every clone run's observable trace of job states is a
legal lifecycle: each observed transition moves forward through
`starting → connecting → analyzing → cloning → (completed | failed)`
(never back), and after a terminal status the status never changes. -/
theorem clone_status_monotone (env : CloneEnv) :
    (cloneTrace env).Chain' (fun a b => StatusStep a.status b.status) := by
  by_cases hs : env.sourceConnectOk = true
  · by_cases ht : env.targetConnectOk = true
    · simp only [cloneTrace, cloneDatabase, hs, ht, if_true]
      by_cases hok : (runCollections env.collections (cloningJob env)).2.2
          = true
      · simp only [hok, if_true]
        exact chain'_cloneTrace_core env _ (Or.inl rfl)
      · rw [Bool.not_eq_true] at hok
        simp only [hok, Bool.false_eq_true, if_false]
        exact chain'_cloneTrace_core env _ (Or.inr rfl)
    · rw [Bool.not_eq_true] at ht
      simp only [cloneTrace, cloneDatabase, hs, ht, Bool.false_eq_true,
        if_false, if_true]
      rw [List.chain'_cons, List.chain'_cons, List.chain'_cons,
        List.chain'_cons]
      exact ⟨by decide, by decide, by decide, by decide,
        List.chain'_singleton _⟩
  · rw [Bool.not_eq_true] at hs
    simp only [cloneTrace, cloneDatabase, hs, Bool.false_eq_true, if_false]
    rw [List.chain'_cons, List.chain'_cons]
    exact ⟨by decide, by decide, List.chain'_singleton _⟩

/-! # Lemmas about the schema inferencer -/

/-- Values of field `f` inside one document, in order. -/
def valuesOf (ps : List (String × JsValue)) (f : String) : List JsValue :=
  ps.filterMap (fun p => if p.1 = f then some p.2 else none)

lemma take3_snoc (l : List JsValue) (v : JsValue) :
    (l ++ [v]).take 3 =
      if l.length < 3 then l.take 3 ++ [v] else l.take 3 := by
  by_cases h : l.length < 3
  · rw [if_pos h, List.take_of_length_le (by simp; omega),
      List.take_of_length_le (le_of_lt h)]
  · rw [if_neg h, List.take_append_of_le_length (by omega)]

lemma length_take3 (l : List JsValue) (h : l.length < 3) :
    (l.take 3).length = l.length := by
  simp [List.length_take]
  omega

lemma lookup_cons_ne {β : Type} (k : String) (b : β)
    (es : List (String × β)) (a : String) (h : a ≠ k) :
    ((k, b) :: es).lookup a = es.lookup a := by
  rw [List.lookup_cons, beq_eq_false_iff_ne.mpr h]

lemma lookup_upsert_self :
    ∀ (acc : List (String × FieldAcc)) (f : String) (v : JsValue),
      List.lookup f (upsertField acc f v)
        = some (updateFieldAcc ((List.lookup f acc).getD ⟨[], 0, []⟩) v) := by
  intro acc f v
  induction acc with
  | nil => simp [upsertField, List.lookup]
  | cons p rest ih =>
      obtain ⟨f₀, a⟩ := p
      by_cases h : f₀ = f
      · subst h
        simp [upsertField, List.lookup]
      · simp only [upsertField, h, if_false]
        rw [lookup_cons_ne _ _ _ _ (Ne.symm h),
          lookup_cons_ne _ _ _ _ (Ne.symm h), ih]

lemma lookup_upsert_other :
    ∀ (acc : List (String × FieldAcc)) (f g : String) (v : JsValue),
      g ≠ f →
      List.lookup g (upsertField acc f v) = List.lookup g acc := by
  intro acc f g v hg
  induction acc with
  | nil =>
      simp only [upsertField, List.lookup_nil]
      rw [lookup_cons_ne _ _ _ _ hg, List.lookup_nil]
  | cons p rest ih =>
      obtain ⟨f₀, a⟩ := p
      by_cases h : f₀ = f
      · subst h
        simp only [upsertField, if_true]
        rw [lookup_cons_ne _ _ _ _ hg, lookup_cons_ne _ _ _ _ hg]
      · simp only [upsertField, h, if_false]
        by_cases hgf : g = f₀
        · subst hgf
          rw [List.lookup_cons_self, List.lookup_cons_self]
        · rw [lookup_cons_ne _ _ _ _ hgf, lookup_cons_ne _ _ _ _ hgf, ih]

lemma foldl_upsert_examples :
    ∀ (ps : List (String × JsValue)) (acc : List (String × FieldAcc))
      (vals : String → List JsValue),
      (∀ f a, List.lookup f acc = some a → a.examples = (vals f).take 3) →
      (∀ f, List.lookup f acc = none → vals f = []) →
      (∀ f a,
        List.lookup f (ps.foldl (fun s p => upsertField s p.1 p.2) acc)
          = some a →
        a.examples = ((vals f) ++ valuesOf ps f).take 3) ∧
      (∀ f,
        List.lookup f (ps.foldl (fun s p => upsertField s p.1 p.2) acc)
          = none →
        (vals f) ++ valuesOf ps f = []) := by
  intro ps
  induction ps with
  | nil =>
      intro acc vals h1 h2
      constructor
      · intro f a hf
        simpa [valuesOf] using h1 f a hf
      · intro f hf
        simpa [valuesOf] using h2 f hf
  | cons p rest ih =>
      obtain ⟨k, v⟩ := p
      intro acc vals h1 h2
      have h1' : ∀ f a, List.lookup f (upsertField acc k v) = some a →
          a.examples =
            ((if f = k then vals f ++ [v] else vals f) : List JsValue).take 3 := by
        intro f a hf
        by_cases hfk : f = k
        · subst hfk
          rw [lookup_upsert_self] at hf
          rw [if_pos rfl]
          cases hacc : List.lookup f acc with
          | none =>
              rw [hacc] at hf
              have hv : vals f = [] := h2 f hacc
              simp only [Option.getD] at hf
              cases hf
              simp [updateFieldAcc, hv]
          | some o =>
              rw [hacc] at hf
              simp only [Option.getD] at hf
              cases hf
              have ho : o.examples = (vals f).take 3 := h1 f o hacc
              show (updateFieldAcc o v).examples = (vals f ++ [v]).take 3
              rw [take3_snoc]
              by_cases hlen : (vals f).length < 3
              · rw [if_pos hlen]
                simp [updateFieldAcc, ho, length_take3 _ hlen, hlen]
              · rw [if_neg hlen]
                have hol : ¬ o.examples.length < 3 := by
                  rw [ho]
                  simp only [List.length_take]
                  omega
                simp [updateFieldAcc, hol, ho]
                omega
        · rw [lookup_upsert_other acc k f v hfk] at hf
          rw [if_neg hfk]
          exact h1 f a hf
      have h2' : ∀ f, List.lookup f (upsertField acc k v) = none →
          ((if f = k then vals f ++ [v] else vals f) : List JsValue) = [] := by
        intro f hf
        by_cases hfk : f = k
        · subst hfk
          rw [lookup_upsert_self] at hf
          exact absurd hf (by simp)
        · rw [lookup_upsert_other acc k f v hfk] at hf
          rw [if_neg hfk]
          exact h2 f hf
      have hmain := ih (upsertField acc k v)
        (fun f => if f = k then vals f ++ [v] else vals f) h1' h2'
      have hvals : ∀ f,
          ((if f = k then vals f ++ [v] else vals f) : List JsValue) ++
              valuesOf rest f
            = vals f ++ valuesOf ((k, v) :: rest) f := by
        intro f
        by_cases hfk : f = k
        · subst hfk
          simp [valuesOf, List.append_assoc]
        · have hkf : ¬ (k = f) := fun hc => hfk hc.symm
          simp [valuesOf, hfk, hkf]
      constructor
      · intro f a hf
        have := hmain.1 f a (by simpa using hf)
        rwa [hvals f] at this
      · intro f hf
        have := hmain.2 f (by simpa using hf)
        rwa [hvals f] at this

lemma foldl_processDoc_examples :
    ∀ (docs : List JsDoc) (acc : List (String × FieldAcc))
      (vals : String → List JsValue),
      (∀ f a, List.lookup f acc = some a → a.examples = (vals f).take 3) →
      (∀ f, List.lookup f acc = none → vals f = []) →
      (∀ f a, List.lookup f (docs.foldl processDoc acc) = some a →
        a.examples = ((vals f) ++ fieldValues docs f).take 3) ∧
      (∀ f, List.lookup f (docs.foldl processDoc acc) = none →
        (vals f) ++ fieldValues docs f = []) := by
  intro docs
  induction docs with
  | nil =>
      intro acc vals h1 h2
      constructor
      · intro f a hf
        simpa [fieldValues] using h1 f a hf
      · intro f hf
        simpa [fieldValues] using h2 f hf
  | cons d rest ih =>
      intro acc vals h1 h2
      have hinner := foldl_upsert_examples d acc vals h1 h2
      have hmain := ih (processDoc acc d)
        (fun f => vals f ++ valuesOf d f)
        (fun f a hf => hinner.1 f a hf) (fun f hf => hinner.2 f hf)
      have hvals : ∀ f,
          (vals f ++ valuesOf d f) ++ fieldValues rest f
            = vals f ++ fieldValues (d :: rest) f := by
        intro f
        simp [fieldValues, valuesOf, List.append_assoc]
      constructor
      · intro f a hf
        have := hmain.1 f a (by simpa [processDoc] using hf)
        rwa [hvals f] at this
      · intro f hf
        have := hmain.2 f (by simpa [processDoc] using hf)
        rwa [hvals f] at this

lemma upsert_keys (acc : List (String × FieldAcc)) (f : String) (v : JsValue) :
    (upsertField acc f v).map Prod.fst =
      if f ∈ acc.map Prod.fst then acc.map Prod.fst
      else acc.map Prod.fst ++ [f] := by
  induction acc with
  | nil => simp [upsertField]
  | cons p rest ih =>
      obtain ⟨f₀, a⟩ := p
      by_cases h : f₀ = f
      · subst h
        simp [upsertField]
      · simp only [upsertField, h, if_false, List.map_cons, ih]
        by_cases hm : f ∈ rest.map Prod.fst
        · simp [hm, Ne.symm h]
        · simp [hm, Ne.symm h]

lemma upsert_keys_nodup (acc : List (String × FieldAcc)) (f : String)
    (v : JsValue) (h : (acc.map Prod.fst).Nodup) :
    ((upsertField acc f v).map Prod.fst).Nodup := by
  rw [upsert_keys]
  by_cases hm : f ∈ acc.map Prod.fst
  · rwa [if_pos hm]
  · rw [if_neg hm]
    simp [List.nodup_append, h, hm]

lemma foldl_upsert_keys_nodup :
    ∀ (ps : List (String × JsValue)) (acc : List (String × FieldAcc)),
      (acc.map Prod.fst).Nodup →
      (((ps.foldl (fun s p => upsertField s p.1 p.2) acc)).map
        Prod.fst).Nodup := by
  intro ps
  induction ps with
  | nil => intro acc h; simpa using h
  | cons p rest ih =>
      intro acc h
      simpa using ih (upsertField acc p.1 p.2) (upsert_keys_nodup acc _ _ h)

lemma foldl_processDoc_keys_nodup :
    ∀ (docs : List JsDoc) (acc : List (String × FieldAcc)),
      (acc.map Prod.fst).Nodup →
      ((docs.foldl processDoc acc).map Prod.fst).Nodup := by
  intro docs
  induction docs with
  | nil => intro acc h; simpa using h
  | cons d rest ih =>
      intro acc h
      simpa [processDoc] using
        ih (processDoc acc d) (foldl_upsert_keys_nodup d acc h)

lemma lookup_of_mem_nodup {β : Type} :
    ∀ (l : List (String × β)) (f : String) (b : β),
      (l.map Prod.fst).Nodup → (f, b) ∈ l → List.lookup f l = some b := by
  intro l
  induction l with
  | nil => intro f b _ h; exact absurd h (List.not_mem_nil _)
  | cons p rest ih =>
      intro f b hnd hm
      obtain ⟨f₀, b₀⟩ := p
      rw [List.map_cons, List.nodup_cons] at hnd
      rcases List.mem_cons.mp hm with h | h
      · cases h
        exact List.lookup_cons_self
      · have hne : f ≠ f₀ := by
          intro hc
          subst hc
          have hmem : Prod.fst (f, b) ∈ rest.map Prod.fst :=
            List.mem_map_of_mem Prod.fst h
          exact hnd.1 hmem
        rw [lookup_cons_ne _ _ _ _ hne]
        exact ih f b hnd.2 h

/-- **C6.** Schema inference returns the empty mapping on an empty
sample; on `[{a: 1}, {a: "x", b: true}]` it reports field `a` with
presence 100% and kinds `[number, string]` and field `b` with presence
50% and kind `[boolean]`; and for every field of every sample, the
stored examples are exactly the first (up to) 3 values of that field in
encounter order. -/
theorem schema_inference_spec :
    generateSchema [] = [] ∧
    generateSchema [[("a", .num 1)], [("a", .str "x"), ("b", .bool true)]]
      = [("a", ⟨["number", "string"], 2, [.num 1, .str "x"], 100⟩),
         ("b", ⟨["boolean"], 1, [.bool true], 50⟩)] ∧
    (∀ (docs : List JsDoc) (f : String) (fs : FieldSchema),
      (f, fs) ∈ generateSchema docs →
      fs.examples = (fieldValues docs f).take 3) := by
  refine ⟨rfl, rfl, ?_⟩
  intro docs f fs hm
  by_cases hd : docs.length = 0
  · unfold generateSchema at hm
    rw [if_pos hd] at hm
    exact absurd hm (List.not_mem_nil _)
  · unfold generateSchema at hm
    rw [if_neg hd] at hm
    rcases List.mem_map.mp hm with ⟨p, hp, heq⟩
    obtain ⟨f₀, a⟩ := p
    cases heq
    have hnd := foldl_processDoc_keys_nodup docs [] (by simp)
    have hlk := lookup_of_mem_nodup _ f₀ a hnd hp
    have hex := (foldl_processDoc_examples docs [] (fun _ => [])
      (fun f a h => by simp at h) (fun f h => rfl)).1 f₀ a hlk
    simpa using hex

/-- Witness for C6's general part at field `a` of the two-document
sample. -/
theorem schema_inference_spec_witness :
    (("a", (⟨["number", "string"], 2, [.num 1, .str "x"], 100⟩ :
        FieldSchema)) ∈ generateSchema
          [[("a", .num 1)], [("a", .str "x"), ("b", .bool true)]]) ∧
    (⟨["number", "string"], 2, [.num 1, .str "x"], 100⟩ :
        FieldSchema).examples
      = (fieldValues [[("a", .num 1)], [("a", .str "x"), ("b", .bool true)]]
          "a").take 3 := by
  have hmem : ("a", (⟨["number", "string"], 2, [.num 1, .str "x"], 100⟩ :
      FieldSchema)) ∈ generateSchema
        [[("a", .num 1)], [("a", .str "x"), ("b", .bool true)]] := by
    show ("a", (⟨["number", "string"], 2, [.num 1, .str "x"], 100⟩ :
        FieldSchema)) ∈
      [("a", (⟨["number", "string"], 2, [.num 1, .str "x"], 100⟩ :
          FieldSchema)),
       ("b", (⟨["boolean"], 1, [.bool true], 50⟩ : FieldSchema))]
    exact List.mem_cons_self _ _
  exact ⟨hmem, schema_inference_spec.2.2 _ "a" _ hmem⟩

/-! # The claims about the CRUD document routes -/

/-- **C7.** A malformed document identifier (not 24 hexadecimal
characters) makes update, delete and get return a 400 client error —
not a 404, and with the collection left untouched. -/
theorem malformed_id_client_error (jsonParse : String → Option JsDoc)
    (col : List StoredDoc) (documentId : String) (updates : Payload)
    (h : isValidObjectId documentId = false) :
    (updateDocumentRoute jsonParse col documentId updates).1.isBadRequest
        = true ∧
    (updateDocumentRoute jsonParse col documentId updates).2 = col ∧
    deleteDocumentRoute col documentId = (.badRequest objectIdErrorMsg, col) ∧
    getDocumentRoute col documentId = .badRequest objectIdErrorMsg := by
  refine ⟨?_, ?_, ?_, ?_⟩
  · cases updates with
    | structured v => simp [updateDocumentRoute, h, Resp.isBadRequest]
    | text s =>
        cases hp : jsonParse s with
        | none => simp [updateDocumentRoute, hp, Resp.isBadRequest]
        | some v => simp [updateDocumentRoute, hp, h, Resp.isBadRequest]
  · cases updates with
    | structured v => simp [updateDocumentRoute, h]
    | text s =>
        cases hp : jsonParse s with
        | none => simp [updateDocumentRoute, hp]
        | some v => simp [updateDocumentRoute, hp, h]
  · simp [deleteDocumentRoute, h]
  · simp [getDocumentRoute, h]

/-- Witness for C7 at the malformed identifier `"xyz"`. -/
theorem malformed_id_client_error_witness :
    (updateDocumentRoute (fun _ => none)
        [⟨"0123456789abcdef01234567", []⟩] "xyz"
        (.structured [("x", .num 1)])).1.isBadRequest = true ∧
    (updateDocumentRoute (fun _ => none)
        [⟨"0123456789abcdef01234567", []⟩] "xyz"
        (.structured [("x", .num 1)])).2
      = [⟨"0123456789abcdef01234567", []⟩] ∧
    deleteDocumentRoute [⟨"0123456789abcdef01234567", []⟩] "xyz"
      = (.badRequest objectIdErrorMsg, [⟨"0123456789abcdef01234567", []⟩]) ∧
    getDocumentRoute [⟨"0123456789abcdef01234567", []⟩] "xyz"
      = .badRequest objectIdErrorMsg :=
  malformed_id_client_error (fun _ => none)
    [⟨"0123456789abcdef01234567", []⟩] "xyz"
    (.structured [("x", .num 1)]) rfl

/-- **C8.** A non-blank string filter that fails to parse is silently
replaced by the match-everything filter (the listing succeeds exactly
as with `{}`), while a string document or updates payload that fails to
parse yields a 400 and no write. -/
theorem filter_parse_fallback (jsonParse : String → Option JsDoc)
    (col : List StoredDoc) (page limit : Nat) (s : String)
    (newId documentId : String)
    (hs : isBlank s = false) (hp : jsonParse s = none) :
    documentsRoute jsonParse col page limit (.text s)
      = documentsRoute jsonParse col page limit (.structured []) ∧
    (documentsRoute jsonParse col page limit (.text s)).isOk = true ∧
    createDocumentRoute jsonParse newId col (.text s)
      = (.badRequest "Invalid JSON document", col) ∧
    updateDocumentRoute jsonParse col documentId (.text s)
      = (.badRequest "Invalid JSON updates", col) := by
  refine ⟨?_, ?_, ?_, ?_⟩
  · simp [documentsRoute, hs, hp]
  · simp [documentsRoute, hs, hp, Resp.isOk]
  · simp [createDocumentRoute, hp]
  · simp [updateDocumentRoute, hp]

/-- Witness for C8 at the unparsable filter string `"{bad"`. -/
theorem filter_parse_fallback_witness :
    documentsRoute (fun _ => none) [⟨"0123456789abcdef01234567", []⟩]
        1 20 (.text "bad json")
      = documentsRoute (fun _ => none) [⟨"0123456789abcdef01234567", []⟩]
        1 20 (.structured []) ∧
    (documentsRoute (fun _ => none) [⟨"0123456789abcdef01234567", []⟩]
        1 20 (.text "bad json")).isOk = true ∧
    createDocumentRoute (fun _ => none) "0123456789abcdef01234568"
        [⟨"0123456789abcdef01234567", []⟩] (.text "bad json")
      = (.badRequest "Invalid JSON document",
         [⟨"0123456789abcdef01234567", []⟩]) ∧
    updateDocumentRoute (fun _ => none) [⟨"0123456789abcdef01234567", []⟩]
        "0123456789abcdef01234567" (.text "bad json")
      = (.badRequest "Invalid JSON updates",
         [⟨"0123456789abcdef01234567", []⟩]) :=
  filter_parse_fallback (fun _ => none) [⟨"0123456789abcdef01234567", []⟩]
    1 20 "bad json" "0123456789abcdef01234568" "0123456789abcdef01234567"
    rfl rfl

lemma lookup_setField_self :
    ∀ (fs : List (String × JsValue)) (k : String) (v : JsValue),
      List.lookup k (setField fs k v) = some v := by
  intro fs k v
  induction fs with
  | nil => simp [setField]
  | cons p rest ih =>
      obtain ⟨k₀, v₀⟩ := p
      by_cases h : k₀ = k
      · subst h
        simp [setField]
      · simp only [setField, h, if_false]
        rw [lookup_cons_ne _ _ _ _ (Ne.symm h), ih]

lemma lookup_setField_other :
    ∀ (fs : List (String × JsValue)) (k g : String) (v : JsValue),
      g ≠ k →
      List.lookup g (setField fs k v) = List.lookup g fs := by
  intro fs k g v hg
  induction fs with
  | nil =>
      simp only [setField, List.lookup_nil]
      rw [lookup_cons_ne _ _ _ _ hg, List.lookup_nil]
  | cons p rest ih =>
      obtain ⟨k₀, v₀⟩ := p
      by_cases h : k₀ = k
      · subst h
        simp only [setField, if_true]
        rw [lookup_cons_ne _ _ _ _ hg, lookup_cons_ne _ _ _ _ hg]
      · simp only [setField, h, if_false]
        by_cases hgk : g = k₀
        · subst hgk
          rw [List.lookup_cons_self, List.lookup_cons_self]
        · rw [lookup_cons_ne _ _ _ _ hgk, lookup_cons_ne _ _ _ _ hgk, ih]

lemma lookup_applySet :
    ∀ (u : List (String × JsValue)) (fs : List (String × JsValue)),
      (u.map Prod.fst).Nodup →
      (∀ k, k ∉ u.map Prod.fst →
        List.lookup k (applySet fs u) = List.lookup k fs) ∧
      (∀ k, k ∈ u.map Prod.fst →
        List.lookup k (applySet fs u) = List.lookup k u) := by
  intro u
  induction u with
  | nil =>
      intro fs _
      exact ⟨fun k _ => rfl, fun k hk => absurd hk (List.not_mem_nil _)⟩
  | cons p u' ih =>
      obtain ⟨k₀, v₀⟩ := p
      intro fs hnd
      rw [List.map_cons, List.nodup_cons] at hnd
      have happ : applySet fs ((k₀, v₀) :: u')
          = applySet (setField fs k₀ v₀) u' := rfl
      constructor
      · intro k hk
        rw [List.map_cons, List.mem_cons] at hk
        push_neg at hk
        rw [happ, (ih (setField fs k₀ v₀) hnd.2).1 k hk.2,
          lookup_setField_other fs k₀ k v₀ hk.1]
      · intro k hk
        rw [List.map_cons, List.mem_cons] at hk
        rcases hk with rfl | hk
        · rw [happ, (ih (setField fs k v₀) hnd.2).1 k hnd.1,
            lookup_setField_self, List.lookup_cons_self]
        · have hne : k ≠ k₀ := fun hc => hnd.1 (hc ▸ hk)
          rw [happ, (ih (setField fs k₀ v₀) hnd.2).2 k hk,
            lookup_cons_ne _ _ _ _ hne]

lemma updateFirstMatch_split :
    ∀ (pre : List StoredDoc) (d : StoredDoc) (post : List StoredDoc)
      (i : String) (u : List (String × JsValue)),
      d.id = i → (∀ p ∈ pre, p.id ≠ i) →
      updateFirstMatch (pre ++ d :: post) i u
        = pre ++ { d with fields := applySet d.fields u } :: post := by
  intro pre
  induction pre with
  | nil =>
      intro d post i u hd _
      simp [updateFirstMatch, hd]
  | cons p pre' ih =>
      intro d post i u hd hpre
      have hp : p.id ≠ i := hpre p (List.mem_cons_self _ _)
      simp only [List.cons_append, updateFirstMatch, hp, if_false]
      exact congrArg (fun t => p :: t)
        (ih d post i u hd (fun q hq => hpre q (List.mem_cons_of_mem p hq)))

/-- **C10.** A successful update with a well-formed identifier writes,
via `$set`, exactly the top-level fields named in the updates object of
the first document whose `_id` matches: named fields take the updates'
values, all other fields and the `_id` are unchanged, and every other
document of the collection is untouched (the hypothesis that `_id` is
not among the updated field names keeps the model inside MongoDB's
`$set` semantics, which rejects `_id` rewrites). -/
theorem update_set_frame (jsonParse : String → Option JsDoc)
    (col : List StoredDoc) (documentId : String) (u : JsDoc)
    (hid : isValidObjectId documentId = true)
    (hnodup : (u.map Prod.fst).Nodup)
    (hno : "_id" ∉ u.map Prod.fst) :
    ((∀ d ∈ col, d.id ≠ documentId) →
      updateDocumentRoute jsonParse col documentId (.structured u)
        = (.notFound "Document not found", col)) ∧
    (∀ (pre : List StoredDoc) (d : StoredDoc) (post : List StoredDoc),
      col = pre ++ d :: post → d.id = documentId →
      (∀ p ∈ pre, p.id ≠ documentId) →
      (updateDocumentRoute jsonParse col documentId (.structured u)).1
          = .ok () ∧
      (updateDocumentRoute jsonParse col documentId (.structured u)).2
        = pre ++ { d with fields := applySet d.fields u } :: post ∧
      ({ d with fields := applySet d.fields u }).id = d.id ∧
      (∀ k, k ∉ u.map Prod.fst →
        List.lookup k (applySet d.fields u) = List.lookup k d.fields) ∧
      (∀ k, k ∈ u.map Prod.fst →
        List.lookup k (applySet d.fields u) = List.lookup k u)) := by
  constructor
  · intro hnone
    have hany : col.any (fun d => d.id = documentId) = false := by
      rw [List.any_eq_false]
      intro d hd
      simp [hnone d hd]
    simp [updateDocumentRoute, hid, hany]
  · intro pre d post hcol hd hpre
    have hany : col.any (fun d => d.id = documentId) = true := by
      rw [List.any_eq_true]
      refine ⟨d, ?_, by simp [hd]⟩
      rw [hcol]
      exact List.mem_append_right _ (List.mem_cons_self _ _)
    refine ⟨?_, ?_, rfl, (lookup_applySet u d.fields hnodup).1,
      (lookup_applySet u d.fields hnodup).2⟩
    · simp [updateDocumentRoute, hid, hany]
    · simp only [updateDocumentRoute, hid, if_true, hany]
      rw [hcol]
      exact updateFirstMatch_split pre d post documentId u hd hpre

/-- Witness for C10: updating field `x` of a one-document collection;
field `y` and the `_id` stay as they were. -/
theorem update_set_frame_witness :
    (updateDocumentRoute (fun _ => none)
        [⟨"0123456789abcdef01234567", [("x", .num 1), ("y", .num 2)]⟩]
        "0123456789abcdef01234567" (.structured [("x", .num 9)])).1
      = .ok () ∧
    (updateDocumentRoute (fun _ => none)
        [⟨"0123456789abcdef01234567", [("x", .num 1), ("y", .num 2)]⟩]
        "0123456789abcdef01234567" (.structured [("x", .num 9)])).2
      = [] ++ { (⟨"0123456789abcdef01234567",
            [("x", JsValue.num 1), ("y", JsValue.num 2)]⟩ : StoredDoc) with
          fields := applySet [("x", .num 1), ("y", .num 2)]
            [("x", .num 9)] } :: [] ∧
    ({ (⟨"0123456789abcdef01234567",
          [("x", JsValue.num 1), ("y", JsValue.num 2)]⟩ : StoredDoc) with
        fields := applySet [("x", .num 1), ("y", .num 2)]
          [("x", .num 9)] }).id = "0123456789abcdef01234567" ∧
    (∀ k, k ∉ ([("x", JsValue.num 9)].map Prod.fst) →
      List.lookup k (applySet [("x", .num 1), ("y", .num 2)]
          [("x", .num 9)])
        = List.lookup k [("x", JsValue.num 1), ("y", JsValue.num 2)]) ∧
    (∀ k, k ∈ ([("x", JsValue.num 9)].map Prod.fst) →
      List.lookup k (applySet [("x", .num 1), ("y", .num 2)]
          [("x", .num 9)])
        = List.lookup k [("x", JsValue.num 9)]) :=
  (update_set_frame (fun _ => none)
    [⟨"0123456789abcdef01234567", [("x", .num 1), ("y", .num 2)]⟩]
    "0123456789abcdef01234567" [("x", .num 9)] rfl
    (by decide) (by decide)).2
    [] ⟨"0123456789abcdef01234567", [("x", .num 1), ("y", .num 2)]⟩ []
    rfl rfl (fun p hp => absurd hp (List.not_mem_nil p))

/-! # Lemmas about the job tracker -/

lemma digitVal_digitChar (n : Nat) (h : n < 10) :
    digitVal (Nat.digitChar n) = n := by
  interval_cases n <;> rfl

lemma decodeChars_append (l : List Char) (c : Char) :
    decodeChars (l ++ [c]) = 10 * decodeChars l + digitVal c := by
  simp [decodeChars, List.foldl_append]

lemma decodeChars_decChars (n : Nat) : decodeChars (decChars n) = n := by
  induction n using Nat.strong_induction_on with
  | _ n ih =>
    rw [decChars]
    split
    · rename_i h
      simp [decodeChars, digitVal_digitChar n h]
    · rename_i h
      rw [decodeChars_append,
        ih (n / 10) (Nat.div_lt_self (by omega) (by norm_num)),
        digitVal_digitChar (n % 10) (Nat.mod_lt n (by norm_num))]
      omega

lemma decChars_injective (a b : Nat) (h : decChars a = decChars b) :
    a = b := by
  have h2 := congrArg decodeChars h
  rwa [decodeChars_decChars, decodeChars_decChars] at h2

lemma toDigitsCore_eq_decChars :
    ∀ (fuel n : Nat) (ds : List Char), n < fuel →
      Nat.toDigitsCore 10 fuel n ds = decChars n ++ ds := by
  intro fuel
  induction fuel with
  | zero => intro n ds h; omega
  | succ f ih =>
      intro n ds h
      by_cases h0 : n / 10 = 0
      · have hn : n < 10 := by
          by_contra hc
          rw [Nat.div_eq_zero_iff (by norm_num)] at h0
          omega
        simp only [Nat.toDigitsCore, h0, if_true, reduceIte]
        rw [decChars, if_pos hn, Nat.mod_eq_of_lt hn]
        rfl
      · have hn : ¬ n < 10 := by
          intro hc
          exact h0 (Nat.div_eq_of_lt hc)
        have hdiv : n / 10 < f := by
          have h1 : n / 10 < n := Nat.div_lt_self (by omega) (by norm_num)
          omega
        simp only [Nat.toDigitsCore, h0, reduceIte]
        rw [ih (n / 10) _ hdiv]
        conv_rhs => rw [decChars]
        rw [if_neg hn, List.append_assoc]
        rfl

lemma natRepr_eq_decChars (n : Nat) :
    Nat.repr n = (decChars n).asString := by
  show (Nat.toDigits 10 n).asString = (decChars n).asString
  rw [Nat.toDigits, toDigitsCore_eq_decChars (n + 1) n [] (Nat.lt_succ_self n),
    List.append_nil]

lemma jobIdOf_injective (a b : Nat) (h : jobIdOf a = jobIdOf b) : a = b := by
  have h1 : Nat.repr a = Nat.repr b := h
  rw [natRepr_eq_decChars, natRepr_eq_decChars] at h1
  have h2 : decChars a = decChars b := by
    have := congrArg String.data h1
    simpa [List.asString] using this
  exact decChars_injective a b h2

lemma mapSet_append (m : List (String × CloneJob)) (k : String)
    (v : CloneJob) (h : k ∉ m.map Prod.fst) :
    mapSet m k v = m ++ [(k, v)] := by
  have hany : m.any (fun p => p.1 = k) = false := by
    rw [List.any_eq_false]
    intro p hp
    simp only [decide_eq_true_eq]
    intro hc
    exact h (hc ▸ List.mem_map_of_mem Prod.fst hp)
  rw [mapSet, hany]
  simp

lemma runCreates_keys :
    ∀ (ts : List Nat) (m : List (String × CloneJob)),
      (∀ t ∈ ts, jobIdOf t ∉ m.map Prod.fst) →
      (ts.map jobIdOf).Nodup →
      (ts.foldl createJob m).map Prod.fst
        = m.map Prod.fst ++ ts.map jobIdOf := by
  intro ts
  induction ts with
  | nil => intro m _ _; simp
  | cons t ts' ih =>
      intro m hfresh hnd
      rw [List.map_cons, List.nodup_cons] at hnd
      have hstep : createJob m t = m ++ [(jobIdOf t, initJob)] :=
        mapSet_append m (jobIdOf t) initJob
          (hfresh t (List.mem_cons_self _ _))
      have hkeys : (createJob m t).map Prod.fst
          = m.map Prod.fst ++ [jobIdOf t] := by
        rw [hstep]; simp
      have hfresh' : ∀ u ∈ ts', jobIdOf u ∉ (createJob m t).map Prod.fst := by
        intro u hu
        rw [hkeys]
        simp only [List.mem_append, List.mem_singleton]
        push_neg
        refine ⟨hfresh u (List.mem_cons_of_mem t hu), ?_⟩
        intro hc
        exact hnd.1 (hc ▸ List.mem_map_of_mem jobIdOf hu)
      have := ih (createJob m t) hfresh' hnd.2
      rw [List.foldl_cons, this, hkeys, List.append_assoc]
      rfl

/-! # The claim about the job tracker -/

/-- Counterexample to **C4** as stated: two creations observing the
same `Date.now()` reading (millisecond 5) derive the same identifier,
and the second `Map.set` overwrites the first job — after two creates
the tracker holds a single entry, so the identifier was made to refer
to a second job. -/
theorem jobId_collision_counterexample :
    jobIdOf 5 = jobIdOf 5 ∧
    ¬ ((([5, 5] : List Nat).map jobIdOf).Nodup) ∧
    (runCreates [5, 5]).length = 1 := by
  refine ⟨rfl, ?_, rfl⟩
  decide

/-- **C4 (amended).** Provided every create observes a distinct clock
reading, identifiers are pairwise distinct, no entry is overwritten
(one map entry per create), and the tracker's keys are distinct. -/
theorem jobIds_unique_of_distinct_clock (ts : List Nat) (h : ts.Nodup) :
    (ts.map jobIdOf).Nodup ∧
    (runCreates ts).length = ts.length ∧
    ((runCreates ts).map Prod.fst).Nodup := by
  have hinj : Function.Injective jobIdOf := fun a b hab =>
    jobIdOf_injective a b hab
  have hids : (ts.map jobIdOf).Nodup := h.map hinj
  have hkeys := runCreates_keys ts []
    (fun t _ => by simp) hids
  refine ⟨hids, ?_, ?_⟩
  · have hlen := congrArg List.length hkeys
    simpa [runCreates] using hlen
  · rw [runCreates, hkeys]
    simpa using hids

/-- Witness for the amended C4 at three distinct clock readings. -/
theorem jobIds_unique_of_distinct_clock_witness :
    (([5, 6, 7] : List Nat).map jobIdOf).Nodup ∧
    (runCreates [5, 6, 7]).length = 3 ∧
    ((runCreates [5, 6, 7]).map Prod.fst).Nodup :=
  jobIds_unique_of_distinct_clock [5, 6, 7] (by decide)

end MongoCloner
